import Mathlib

/-!
# Verification of the koda log store (`logstore` package)

A shallow embedding of the append-only, log-structured key-value store:
the record codec (`record.go`), the framed scanner (`scanner.go` with
`bufio.Scanner` semantics), and the store (`store.go`).

Go byte sequences (`[]byte`, `string`) are modelled as `List Nat` whose
elements are below 256; 32-bit unsigned arithmetic is modelled as `Nat`
with explicit `% 2 ^ 32` where Go wraps.  Go runtime panics (slice
bounds out of range) are modelled as an explicit outcome.
-/

namespace Logstore

/-- A list of naturals is a valid byte sequence when every element fits a byte. -/
def IsBytes (l : List Nat) : Prop := ∀ b ∈ l, b < 256

instance (l : List Nat) : Decidable (IsBytes l) := by
  unfold IsBytes; infer_instance

/-! ## CRC-32 (IEEE), as `hash/crc32` computes it: reflected polynomial
`0xEDB88320`, initial value `0xFFFFFFFF`, final complement. -/

/-- One bit step of the reflected CRC-32: shift right, conditionally xor
the polynomial. -/
def crcBit (c : Nat) : Nat :=
  if c % 2 = 1 then Nat.xor (c / 2) 0xEDB88320 else c / 2

/-- Process one byte: xor it into the low bits, then eight bit steps. -/
def crcByte (c b : Nat) : Nat :=
  crcBit (crcBit (crcBit (crcBit (crcBit (crcBit (crcBit (crcBit (Nat.xor c b))))))))

/-- CRC-32 (IEEE) of a byte list, as `crc32.NewIEEE(); Write(data); Sum32()`. -/
def crc32 (data : List Nat) : Nat :=
  Nat.xor (data.foldl crcByte 0xFFFFFFFF) 0xFFFFFFFF

/-! ## Big-endian 32-bit encoding (`encoding/binary.BigEndian`) -/

/-- `binary.BigEndian.PutUint32`: four big-endian bytes of `n` (mod 2^32). -/
def putUint32BE (n : Nat) : List Nat :=
  [n / 2 ^ 24 % 256, n / 2 ^ 16 % 256, n / 2 ^ 8 % 256, n % 256]

/-- `binary.BigEndian.Uint32`: read a 32-bit big-endian value from the first
four bytes of the list. -/
def beUint32 (l : List Nat) : Nat :=
  l.getD 0 0 * 2 ^ 24 + l.getD 1 0 * 2 ^ 16 + l.getD 2 0 * 2 ^ 8 + l.getD 3 0

/-! ## The record (`record.go`) -/

/-- Record kind byte for live values (`kindValue = 0`). -/
def kindValue : Nat := 0

/-- Record kind byte for tombstones (`kindTombstone = 1`). -/
def kindTombstone : Nat := 1

/-- `headerLength = checksumSize + kindSize + keyLenSize + valLenSize = 13`. -/
def headerLength : Nat := 13

/-- A database record: kind byte, key bytes, value bytes (`type Record`). -/
structure Record where
  kind : Nat
  key : List Nat
  value : List Nat
  deriving DecidableEq, Repr

/-- `var NoValue = noValue{}`: the empty value carried by tombstones. -/
def NoValue : List Nat := []

/-- `NewValue(key, value)`: a live record. -/
def NewValue (key value : List Nat) : Record :=
  { kind := kindValue, key := key, value := value }

/-- `NewTombstone(key)`: a deletion record with no value. -/
def NewTombstone (key : List Nat) : Record :=
  { kind := kindTombstone, key := key, value := NoValue }

/-- `Record.IsTombstone()`: the kind byte equals `kindTombstone`. -/
def Record.IsTombstone (r : Record) : Bool :=
  r.kind == kindTombstone

/-- Modelled from the spec: `record_size(r) → u32. Constant-time:
13 + len(key) + len(value)`.  The method `Record.Size()` is called by
`split` and `Store.append` but its definition is not among the provided
source files. -/
def Record.Size (r : Record) : Nat :=
  headerLength + r.key.length + r.value.length

/-- The serialized bytes after the checksum field: the kind byte, the two
big-endian length fields (lengths truncated to `uint32` as in
`uint32(len(r.key))`), the key bytes and the value bytes. -/
def serializeBody (r : Record) : List Nat :=
  r.kind :: (putUint32BE (r.key.length % 2 ^ 32) ++
    (putUint32BE (r.value.length % 2 ^ 32) ++ (r.key ++ r.value)))

/-- `Record.Serialize()`: four placeholder bytes then the body; finally the
CRC-32 of everything after the placeholder (`serializedRecord[4:]`) is
patched into the first four bytes. -/
def Record.Serialize (r : Record) : List Nat :=
  putUint32BE (crc32 (serializeBody r)) ++ serializeBody r

/-- Outcome of `Deserialize`: a record, one of the two error values, or a
Go runtime panic (slice bounds out of range). -/
inductive DeserializeResult where
  | ok : Record → DeserializeResult
  | insufficientData : DeserializeResult
  | corruptData : DeserializeResult
  | panic : DeserializeResult
  deriving DecidableEq, Repr

/-- `copy(dst, src)` where `dst = make([]byte, n)`: the first bytes of `src`,
zero-padded to length `n`. -/
def copyInto (n : Nat) (src : List Nat) : List Nat :=
  src.take n ++ List.replicate (n - (src.take n).length) 0

/-- The record size declared by a buffer's header, in Go's wrapping `uint32`
arithmetic: `headerLength + keyLength + valLength`. -/
def declaredSize (data : List Nat) : Nat :=
  (headerLength + beUint32 (data.drop 5) + beUint32 (data.drop 9)) % 2 ^ 32

/-- `Deserialize(data)`.  Faithful to the source including its `uint32`
wrap-around: the length guard compares `uint32(len(data))` with
`headerLength + keyLength + valLength` in `uint32` arithmetic, and the
CRC is computed over the slice `data[4 : headerLength+keyLength+valLength]`,
which panics when the wrapped upper bound lies below 4 or beyond the
buffer. -/
def Deserialize (data : List Nat) : DeserializeResult :=
  if data.length < headerLength then .insufficientData
  else
    let checksum := beUint32 data
    let kind := data.getD 4 0
    let keyLength := beUint32 (data.drop 5)
    let valLength := beUint32 (data.drop 9)
    let size := (headerLength + keyLength + valLength) % 2 ^ 32
    if data.length % 2 ^ 32 < size then .insufficientData
    else if size < 4 ∨ data.length < size then .panic
    else if crc32 ((data.drop 4).take (size - 4)) ≠ checksum then .corruptData
    else
      -- In the source the `make`/`copy` of key and value happen before the
      -- CRC slice; they have no observable effect on the other outcomes, so
      -- the pure model extracts them only on success.
      let rest := data.drop headerLength
      .ok { kind := kind, key := copyInto keyLength rest,
            value := copyInto valLength (rest.drop keyLength) }

/-! ## The framed scanner (`scanner.go`, over `bufio.Scanner`)

`NewScanner(r, maxTokenSize)` builds a `bufio.Scanner` with a 4096-byte
initial buffer, limit `maxTokenSize + headerLength`, and `split` as the
`SplitFunc`.  `split` deserializes the buffered prefix: `ErrInsufficientData`
asks for more bytes (clean end-of-stream when the reader is exhausted), any
other error stops the scan with that error, and on success the scanner
advances by `record.Size()` bytes (a `bufio` panic if that exceeds the
buffered data).  `bufio.Scanner` refuses to buffer more than the limit for a
single token (`ErrTooLong`), and never presents more than the limit to
`split`. -/

/-- The effective `bufio.Scanner` buffer limit for `NewScanner(r, m)`: the
larger of `m + headerLength` (passed to `Scanner.Buffer`) and the initial
4096-byte buffer's capacity. -/
def scannerMax (maxTokenSize : Nat) : Nat :=
  max (maxTokenSize + headerLength) 4096

/-- Outcome of scanning a whole stream: the records yielded in order,
followed by either clean end-of-stream, a scanner error (`ErrCorruptData`
or `bufio.ErrTooLong`), or a Go runtime panic. -/
inductive ScanOutcome where
  | clean : List Record → ScanOutcome
  | errored : List Record → ScanOutcome
  | panicked : List Record → ScanOutcome
  deriving DecidableEq, Repr

/-- Prepend a yielded record to a scan outcome. -/
def ScanOutcome.cons (r : Record) : ScanOutcome → ScanOutcome
  | .clean rs => .clean (r :: rs)
  | .errored rs => .errored (r :: rs)
  | .panicked rs => .panicked (r :: rs)

/-- One `Scan` loop of the scanner over the not-yet-consumed input `data`,
with buffer limit `max`: the scanner presents at most `max` buffered bytes
to `split`.  `ErrInsufficientData` with all remaining input buffered is a
clean end-of-stream; with more input than the buffer admits it is
`bufio.ErrTooLong`.  On success the scanner advances `record.Size()` bytes.
The fuel argument only bounds the recursion and is irrelevant above
`data.length` (`scanFuel_congr`). -/
def scanFuel (max : Nat) : Nat → List Nat → ScanOutcome
  | 0, _ => .panicked []
  | fuel + 1, data =>
    if data.isEmpty then .clean []
    else
      match Deserialize (data.take max) with
      | .insufficientData => if data.length < max then .clean [] else .errored []
      | .corruptData => .errored []
      | .panic => .panicked []
      | .ok r =>
        if r.Size ≤ (data.take max).length then
          ScanOutcome.cons r (scanFuel max fuel (data.drop r.Size))
        else .panicked []

/-- Run the scanner built by `NewScanner(reader, maxTokenSize)` over the
full contents `data` of the reader. -/
def scanAll (maxTokenSize : Nat) (data : List Nat) : ScanOutcome :=
  scanFuel (scannerMax maxTokenSize) (data.length + 1) data

/-! ## The store (`store.go`) -/

/-- `defaultMaxRecordSize = 1 << 20`. -/
def defaultMaxRecordSize : Nat := 1 <<< 20

/-- The store: the contents of the log file at `storagePath`, and the
configured maximum record size.  (The `sync` flag and the writer mutex have
no observable effect single-threaded and are not modelled.) -/
structure Store where
  file : List Nat
  maxRecordSize : Nat
  deriving DecidableEq, Repr

/-- `NewStore(dir)` on a fresh directory: creates the empty log file and
sets the default maximum record size. -/
def NewStore : Store :=
  { file := [], maxRecordSize := defaultMaxRecordSize }

/-- Modelled from the spec: `NewRecord(key, val)`, called by `Store.Set`, is
not among the provided source files.  The spec's append algorithm reads
"Construct the appropriate Record (Value or Tombstone)", so for `Set` it is
the live `Value` record. -/
def NewRecord (key value : List Nat) : Record := NewValue key value

/-- Result of a write operation: success, or the `BadRequestError`. -/
inductive AppendResult where
  | ok : AppendResult
  | badRequest : AppendResult
  deriving DecidableEq, Repr

/-- `Store.append(r)`: reject with `BadRequest` when `r.Size()` exceeds
`maxRecordSize` — before any I/O — otherwise append the serialized record
to the log file. -/
def Store.append (s : Store) (r : Record) : Store × AppendResult :=
  if r.Size > s.maxRecordSize then (s, .badRequest)
  else ({ s with file := s.file ++ r.Serialize }, .ok)

/-- `Store.Set(key, val)`. -/
def Store.Set (s : Store) (key value : List Nat) : Store × AppendResult :=
  s.append (NewRecord key value)

/-- `Store.Delete(key)`. -/
def Store.Delete (s : Store) (key : List Nat) : Store × AppendResult :=
  s.append (NewTombstone key)

/-- Result of `Store.Get`: the value bytes, `NotFoundError`, a surfaced
scanner error, or a Go runtime panic during the scan. -/
inductive GetResult where
  | ok : List Nat → GetResult
  | notFound : GetResult
  | scanError : GetResult
  | panicked : GetResult
  deriving DecidableEq, Repr

/-- `Store.Get(key)`: scan the whole log with the configured maximum record
size, retaining the last record whose key equals the queried key; surface a
scanner error; otherwise `NotFound` when there is no match or the retained
record is a tombstone, else the retained record's value. -/
def Store.Get (s : Store) (key : List Nat) : GetResult :=
  match scanAll s.maxRecordSize s.file with
  | .clean rs =>
    match rs.foldl (fun acc r => if r.key = key then some r else acc) none with
    | none => .notFound
    | some r => if r.IsTombstone then .notFound else .ok r.value
  | .errored _ => .scanError
  | .panicked _ => .panicked

/-! ## Single-threaded operation sequences against a store -/

/-- A caller-issued write operation. -/
inductive Op where
  | set : List Nat → List Nat → Op
  | del : List Nat → Op
  deriving DecidableEq, Repr

/-- The key an operation addresses. -/
def Op.key : Op → List Nat
  | .set k _ => k
  | .del k => k

/-- The record an operation appends: `Set` builds `NewRecord`, `Delete`
builds `NewTombstone`. -/
def Op.record : Op → Record
  | .set k v => NewRecord k v
  | .del k => NewTombstone k

/-- Byte-validity of the operation's arguments (Go strings and byte slices
always satisfy this). -/
def Op.WF : Op → Prop
  | .set k v => IsBytes k ∧ IsBytes v
  | .del k => IsBytes k

instance (op : Op) : Decidable op.WF := by
  cases op <;> simp only [Op.WF] <;> infer_instance

/-- Apply one operation to the store, keeping the resulting store. -/
def Op.apply (s : Store) : Op → Store
  | .set k v => (s.Set k v).1
  | .del k => (s.Delete k).1

/-- Apply a sequence of operations single-threaded. -/
def applyOps : Store → List Op → Store
  | s, [] => s
  | s, op :: ops => applyOps (op.apply s) ops

/-- The most recent operation addressing `key`, scanning left to right
(mirrors the retain-the-last loop shape of `Store.Get`). -/
def lastOpOn (key : List Nat) (ops : List Op) : Option Op :=
  ops.foldl (fun acc op => if op.key = key then some op else acc) none

/-- The concatenation of the serialized records, in order — the log file
contents produced by a sequence of successful appends. -/
def serializeAll : List Record → List Nat
  | [] => []
  | r :: rs => r.Serialize ++ serializeAll rs

/-- Well-formedness of a record as Go's types guarantee it: the kind is one
byte, key and value are byte sequences, and the serialized size does not
overflow `uint32`. -/
def RecordWF (r : Record) : Prop :=
  r.kind < 256 ∧ IsBytes r.key ∧ IsBytes r.value ∧ r.Size < 2 ^ 32

instance (r : Record) : Decidable (RecordWF r) := by
  unfold RecordWF; infer_instance

/-- Flip bit `j` of the byte at position `p`. -/
def flipBit (data : List Nat) (p j : Nat) : List Nat :=
  data.set p (Nat.xor (data.getD p 0) (2 ^ j))

/-- The CRC comparison `Deserialize` performs on a buffer: the CRC-32 of the
bytes from offset 4 up to the header-declared size, against the stored
checksum field. -/
def carriesMatchingCRC (data : List Nat) : Prop :=
  crc32 ((data.drop 4).take (declaredSize data - 4)) = beUint32 data

instance (data : List Nat) : Decidable (carriesMatchingCRC data) := by
  unfold carriesMatchingCRC; infer_instance

/-! ## Basic lemmas about the codec's building blocks -/

theorem length_putUint32BE (n : Nat) : (putUint32BE n).length = 4 := rfl

theorem putUint32BE_isBytes (n : Nat) : IsBytes (putUint32BE n) := by
  intro b hb
  simp only [putUint32BE, List.mem_cons, List.not_mem_nil, or_false] at hb
  rcases hb with h | h | h | h <;> subst h <;> omega

theorem beUint32_putUint32BE_append (n : Nat) (l : List Nat) (h : n < 2 ^ 32) :
    beUint32 (putUint32BE n ++ l) = n := by
  simp only [putUint32BE, List.cons_append, List.nil_append, beUint32,
    List.getD_cons_zero, List.getD_cons_succ]
  omega

theorem crcBit_lt (c : Nat) (h : c < 2 ^ 32) : crcBit c < 2 ^ 32 := by
  unfold crcBit
  split
  · exact Nat.xor_lt_two_pow (by omega) (by norm_num)
  · omega

theorem crcByte_lt (c b : Nat) (hc : c < 2 ^ 32) (hb : b < 2 ^ 32) :
    crcByte c b < 2 ^ 32 := by
  unfold crcByte
  have h0 : Nat.xor c b < 2 ^ 32 := Nat.xor_lt_two_pow hc hb
  iterate 8 apply crcBit_lt
  exact h0

theorem foldl_crcByte_lt (l : List Nat) :
    ∀ c, c < 2 ^ 32 → (∀ b ∈ l, b < 2 ^ 32) → l.foldl crcByte c < 2 ^ 32 := by
  induction l with
  | nil => intro c hc _; simpa using hc
  | cons x xs ih =>
    intro c hc hl
    simp only [List.foldl_cons]
    exact ih _ (crcByte_lt _ _ hc (hl x (by simp))) fun b hb => hl b (by simp [hb])

theorem crc32_lt (data : List Nat) (h : ∀ b ∈ data, b < 2 ^ 32) :
    crc32 data < 2 ^ 32 := by
  unfold crc32
  exact Nat.xor_lt_two_pow (foldl_crcByte_lt data _ (by norm_num) h) (by norm_num)

theorem copyInto_exact (xs t : List Nat) : copyInto xs.length (xs ++ t) = xs := by
  simp [copyInto, List.take_left]

/-! ## Lemmas about `Serialize` -/

theorem serializeBody_length (r : Record) :
    (serializeBody r).length = 9 + r.key.length + r.value.length := by
  simp [serializeBody, length_putUint32BE]; omega

theorem serializeBody_lt (r : Record) (hkind : r.kind < 256)
    (hkey : IsBytes r.key) (hval : IsBytes r.value) :
    ∀ b ∈ serializeBody r, b < 2 ^ 32 := by
  intro b hb
  simp only [serializeBody, List.mem_cons, List.mem_append] at hb
  rcases hb with h | h | h | h | h
  · omega
  · have := putUint32BE_isBytes _ _ h; omega
  · have := putUint32BE_isBytes _ _ h; omega
  · have := hkey _ h; omega
  · have := hval _ h; omega

theorem serialize_length (r : Record) :
    r.Serialize.length = r.Size := by
  simp [Record.Serialize, Record.Size, serializeBody, headerLength, length_putUint32BE]
  omega

theorem serialize_isBytes (r : Record) (hkind : r.kind < 256)
    (hkey : IsBytes r.key) (hval : IsBytes r.value) :
    IsBytes r.Serialize := by
  intro b hb
  simp only [Record.Serialize, List.mem_append] at hb
  rcases hb with h | h
  · exact putUint32BE_isBytes _ _ h
  · simp only [serializeBody, List.mem_cons, List.mem_append] at h
    rcases h with h | h | h | h | h
    · omega
    · exact putUint32BE_isBytes _ _ h
    · exact putUint32BE_isBytes _ _ h
    · exact hkey _ h
    · exact hval _ h

/-! ## The round-trip workhorse: deserializing a serialized record followed
by arbitrary trailing bytes recovers the record exactly. -/

theorem deserialize_serialize_append (r : Record) (t : List Nat)
    (hkind : r.kind < 256) (hkey : IsBytes r.key) (hval : IsBytes r.value)
    (hsz : headerLength + r.key.length + r.value.length < 2 ^ 32)
    (hlen : r.Size + t.length < 2 ^ 32) :
    Deserialize (r.Serialize ++ t) = .ok r := by
  obtain ⟨kind, key, value⟩ := r
  simp only [Record.Size, headerLength] at hsz hlen
  simp only [IsBytes] at hkey hval
  have hk : key.length < 2 ^ 32 := by omega
  have hv : value.length < 2 ^ 32 := by omega
  have hkmod : key.length % 4294967296 = key.length := Nat.mod_eq_of_lt (by omega)
  have hvmod : value.length % 4294967296 = value.length := Nat.mod_eq_of_lt (by omega)
  have hbody : serializeBody ⟨kind, key, value⟩ =
      kind :: (putUint32BE key.length ++ (putUint32BE value.length ++ (key ++ value))) := by
    simp [serializeBody, hkmod, hvmod]
  have hcrc : crc32 (serializeBody ⟨kind, key, value⟩) < 2 ^ 32 :=
    crc32_lt _ (serializeBody_lt _ hkind hkey hval)
  set crc := crc32 (serializeBody ⟨kind, key, value⟩) with hcrcdef
  have hdata : Record.Serialize ⟨kind, key, value⟩ ++ t =
      putUint32BE crc ++ (kind :: (putUint32BE key.length ++
        (putUint32BE value.length ++ (key ++ (value ++ t))))) := by
    rw [Record.Serialize, hbody]
    simp [List.append_assoc]
    rw [← hbody, ← hcrcdef]
  rw [hdata]
  set data := putUint32BE crc ++ (kind :: (putUint32BE key.length ++
    (putUint32BE value.length ++ (key ++ (value ++ t))))) with hdatadef
  have hdlen : data.length = 13 + key.length + value.length + t.length := by
    simp [hdatadef, length_putUint32BE]
    omega
  have hread0 : beUint32 data = crc := beUint32_putUint32BE_append _ _ hcrc
  have hread4 : data.getD 4 0 = kind := by rw [hdatadef]; rfl
  have hread5 : data.drop 5 =
      putUint32BE key.length ++ (putUint32BE value.length ++ (key ++ (value ++ t))) := by
    rw [hdatadef]
    simp only [putUint32BE, List.cons_append, List.nil_append, List.drop_succ_cons,
      List.drop_zero]
  have hread9 : data.drop 9 = putUint32BE value.length ++ (key ++ (value ++ t)) := by
    rw [hdatadef]
    simp only [putUint32BE, List.cons_append, List.nil_append, List.drop_succ_cons,
      List.drop_zero]
  have hkeylen : beUint32 (data.drop 5) = key.length := by
    rw [hread5]; exact beUint32_putUint32BE_append _ _ hk
  have hvallen : beUint32 (data.drop 9) = value.length := by
    rw [hread9]; exact beUint32_putUint32BE_append _ _ hv
  have hdrop4 : data.drop 4 =
      kind :: (putUint32BE key.length ++ (putUint32BE value.length ++ (key ++ (value ++ t)))) := by
    rw [hdatadef]
    simp only [putUint32BE, List.cons_append, List.nil_append, List.drop_succ_cons,
      List.drop_zero]
  have hdrop13 : data.drop 13 = key ++ (value ++ t) := by
    rw [hdatadef]
    simp only [putUint32BE, List.cons_append, List.nil_append, List.drop_succ_cons,
      List.drop_zero]
  have hbodytake : (data.drop 4).take (9 + key.length + value.length) =
      kind :: (putUint32BE key.length ++ (putUint32BE value.length ++ (key ++ value))) := by
    rw [hdrop4]
    have hlenb : 9 + key.length + value.length =
        (kind :: (putUint32BE key.length ++ (putUint32BE value.length ++ (key ++ value)))).length := by
      simp [length_putUint32BE]; omega
    rw [hlenb]
    rw [show kind :: (putUint32BE key.length ++ (putUint32BE value.length ++ (key ++ (value ++ t)))) =
      (kind :: (putUint32BE key.length ++ (putUint32BE value.length ++ (key ++ value)))) ++ t by
        simp [List.append_assoc]]
    exact List.take_left _ _
  have hchk : crc32 ((data.drop 4).take (9 + key.length + value.length)) = crc := by
    rw [hbodytake, hcrcdef, hbody]
  simp only [Deserialize]
  rw [if_neg (by simp only [headerLength]; omega)]
  simp only [hread0, hread4, hkeylen, hvallen]
  rw [if_neg (by simp only [headerLength]; omega)]
  rw [if_neg (by simp only [headerLength]; omega)]
  simp only [headerLength]
  have harg : (13 + key.length + value.length) % 2 ^ 32 - 4 = 9 + key.length + value.length := by
    omega
  rw [harg, hchk]
  rw [if_neg (by simp)]
  rw [hdrop13]
  rw [copyInto_exact, List.drop_left, copyInto_exact]

/-! ## Lemmas about the scanner -/

theorem header_le_size (r : Record) : headerLength ≤ r.Size := by
  simp only [Record.Size]; omega

theorem serialize_decomp (r : Record)
    (hk : r.key.length < 2 ^ 32) (hv : r.value.length < 2 ^ 32) :
    r.Serialize = putUint32BE (crc32 (serializeBody r)) ++ (r.kind ::
      (putUint32BE r.key.length ++ (putUint32BE r.value.length ++ (r.key ++ r.value)))) := by
  have h1 : r.key.length % 4294967296 = r.key.length := Nat.mod_eq_of_lt (by omega)
  have h2 : r.value.length % 4294967296 = r.value.length := Nat.mod_eq_of_lt (by omega)
  simp [Record.Serialize, serializeBody, h1, h2]

theorem getD_take (l : List Nat) (j i : Nat) (h : i < j) :
    (l.take j).getD i 0 = l.getD i 0 := by
  simp [List.getD_eq_getElem?_getD, List.getElem?_take, h]

theorem beUint32_take (l : List Nat) (j : Nat) (h : 4 ≤ j) :
    beUint32 (l.take j) = beUint32 l := by
  unfold beUint32
  rw [getD_take _ _ _ (by omega), getD_take _ _ _ (by omega),
    getD_take _ _ _ (by omega), getD_take _ _ _ (by omega)]

/-- Deserializing a strict prefix of a well-formed serialized record reports
`ErrInsufficientData`. -/
theorem deserialize_serialize_prefix (r : Record) (k : Nat)
    (hwf : RecordWF r) (hkS : k < r.Size) :
    Deserialize (r.Serialize.take k) = .insufficientData := by
  obtain ⟨hkind, hkey, hval, hsz⟩ := hwf
  have hsz' : headerLength + r.key.length + r.value.length < 2 ^ 32 := hsz
  simp only [Record.Size, headerLength] at hsz' hkS
  have hk : r.key.length < 2 ^ 32 := by omega
  have hv : r.value.length < 2 ^ 32 := by omega
  have hslen : r.Serialize.length = r.Size := serialize_length r
  have hlen : (r.Serialize.take k).length = k := by
    rw [List.length_take, hslen]
    simp only [Record.Size, headerLength]
    omega
  by_cases hk13 : k < 13
  · simp only [Deserialize]
    rw [if_pos (by rw [hlen]; simp only [headerLength]; omega)]
  · have hdecomp := serialize_decomp r hk hv
    have hdrop5 : r.Serialize.drop 5 =
        putUint32BE r.key.length ++ (putUint32BE r.value.length ++ (r.key ++ r.value)) := by
      rw [hdecomp]
      simp only [putUint32BE, List.cons_append, List.nil_append, List.drop_succ_cons,
        List.drop_zero]
    have hdrop9 : r.Serialize.drop 9 =
        putUint32BE r.value.length ++ (r.key ++ r.value) := by
      rw [hdecomp]
      simp only [putUint32BE, List.cons_append, List.nil_append, List.drop_succ_cons,
        List.drop_zero]
    have hkeylen : beUint32 ((r.Serialize.take k).drop 5) = r.key.length := by
      rw [List.drop_take, beUint32_take _ _ (by omega), hdrop5]
      exact beUint32_putUint32BE_append _ _ hk
    have hvallen : beUint32 ((r.Serialize.take k).drop 9) = r.value.length := by
      rw [List.drop_take, beUint32_take _ _ (by omega), hdrop9]
      exact beUint32_putUint32BE_append _ _ hv
    simp only [Deserialize, hkeylen, hvallen]
    rw [if_neg (by rw [hlen]; simp only [headerLength]; omega)]
    rw [if_pos (by rw [hlen]; simp only [headerLength]; omega)]

/-- The fuel argument of `scanFuel` is irrelevant once it exceeds the length
of the remaining input. -/
theorem scanFuel_congr (max : Nat) :
    ∀ f₁ f₂ data, data.length < f₁ → data.length < f₂ →
      scanFuel max f₁ data = scanFuel max f₂ data := by
  intro f₁
  induction f₁ with
  | zero => intro f₂ data h1 _; omega
  | succ n ih =>
    intro f₂ data h1 h2
    obtain ⟨m, rfl⟩ : ∃ m, f₂ = m + 1 := ⟨f₂ - 1, by omega⟩
    by_cases hemp : data.isEmpty
    · simp [scanFuel, hemp]
    · have hpos : 0 < data.length := by
        cases data
        · simp at hemp
        · simp
      simp only [scanFuel, hemp, Bool.false_eq_true, if_false]
      cases hD : Deserialize (data.take max) with
      | ok r =>
        simp only []
        by_cases hadv : r.Size ≤ (data.take max).length
        · rw [if_pos hadv, if_pos hadv]
          have hsr := header_le_size r
          simp only [headerLength] at hsr
          congr 1
          exact ih _ _ (by rw [List.length_drop]; omega) (by rw [List.length_drop]; omega)
        · rw [if_neg hadv, if_neg hadv]
      | insufficientData => rfl
      | corruptData => rfl
      | panic => rfl

theorem scanAll_nil (m : Nat) : scanAll m [] = .clean [] := rfl

theorem scanFuel_step_ok (max fuel : Nat) (data : List Nat)
    (hne : data.isEmpty = false) (r : Record)
    (hD : Deserialize (data.take max) = .ok r)
    (hadv : r.Size ≤ (data.take max).length) :
    scanFuel max (fuel + 1) data =
      ScanOutcome.cons r (scanFuel max fuel (data.drop r.Size)) := by
  conv_lhs => rw [scanFuel]
  rw [hne, hD]
  simp only [Bool.false_eq_true, if_false, if_pos hadv]

theorem scanFuel_step_insufficient (max fuel : Nat) (data : List Nat)
    (hne : data.isEmpty = false)
    (hD : Deserialize (data.take max) = .insufficientData) :
    scanFuel max (fuel + 1) data =
      if data.length < max then .clean [] else .errored [] := by
  conv_lhs => rw [scanFuel]
  rw [hne, hD]
  simp only [Bool.false_eq_true, if_false]

/-- Scanning a well-formed serialized record (that fits the buffer limit)
followed by further bytes yields the record and continues with the rest. -/
theorem scanAll_cons (m : Nat) (r : Record) (rest : List Nat)
    (hwf : RecordWF r) (hfit : r.Size ≤ scannerMax m) (hM : scannerMax m < 2 ^ 32) :
    scanAll m (r.Serialize ++ rest) = (scanAll m rest).cons r := by
  obtain ⟨hkind, hkey, hval, hsz⟩ := hwf
  have hsr := header_le_size r
  simp only [headerLength] at hsr
  have hslen : r.Serialize.length = r.Size := serialize_length r
  have hnonempty : (r.Serialize ++ rest).isEmpty = false := by
    rw [List.isEmpty_eq_false_iff_exists_mem]
    have : 0 < (r.Serialize ++ rest).length := by
      rw [List.length_append, hslen]; omega
    exact List.exists_mem_of_length_pos this
  have htake : (r.Serialize ++ rest).take (scannerMax m) =
      r.Serialize ++ rest.take (scannerMax m - r.Size) := by
    rw [List.take_append_eq_append_take, List.take_of_length_le (by omega), hslen]
  have hD : Deserialize ((r.Serialize ++ rest).take (scannerMax m)) = .ok r := by
    rw [htake]
    refine deserialize_serialize_append r _ hkind hkey hval hsz ?_
    have : (rest.take (scannerMax m - r.Size)).length ≤ scannerMax m - r.Size := by
      rw [List.length_take]; omega
    omega
  have hadv : r.Size ≤ ((r.Serialize ++ rest).take (scannerMax m)).length := by
    rw [htake, List.length_append, hslen]; omega
  have hdrop : (r.Serialize ++ rest).drop r.Size = rest := by
    rw [← hslen, List.drop_left]
  rw [scanAll, scanFuel_step_ok _ _ _ hnonempty r hD hadv, hdrop]
  congr 1
  apply scanFuel_congr
  · rw [List.length_append, hslen]; omega
  · omega

/-- Scanning a nonempty strict prefix of a well-formed serialized record
(shorter than the buffer limit) is a clean end-of-stream. -/
theorem scanAll_fragment (m : Nat) (r : Record) (k : Nat)
    (hwf : RecordWF r) (hk0 : 0 < k) (hkS : k < r.Size) (hkM : k < scannerMax m) :
    scanAll m (r.Serialize.take k) = .clean [] := by
  have hslen : r.Serialize.length = r.Size := serialize_length r
  have hlen : (r.Serialize.take k).length = k := by
    rw [List.length_take, hslen]; omega
  have hnonempty : (r.Serialize.take k).isEmpty = false := by
    rw [List.isEmpty_eq_false_iff_exists_mem]
    exact List.exists_mem_of_length_pos (by omega)
  have hwindow : (r.Serialize.take k).take (scannerMax m) = r.Serialize.take k :=
    List.take_of_length_le (by omega)
  have hD : Deserialize ((r.Serialize.take k).take (scannerMax m)) = .insufficientData := by
    rw [hwindow]
    exact deserialize_serialize_prefix r k hwf hkS
  rw [scanAll, scanFuel_step_insufficient _ _ _ hnonempty hD]
  rw [if_pos (by omega)]

/-- Scanning the concatenation of well-formed serialized records yields
exactly those records followed by a clean end-of-stream. -/
theorem scanAll_complete (m : Nat) (rs : List Record)
    (h : ∀ r ∈ rs, RecordWF r ∧ r.Size ≤ scannerMax m) (hM : scannerMax m < 2 ^ 32) :
    scanAll m (serializeAll rs) = .clean rs := by
  induction rs with
  | nil => rfl
  | cons r rs ih =>
    rw [serializeAll, scanAll_cons m r _ (h r (by simp)).1 (h r (by simp)).2 hM,
      ih fun x hx => h x (by simp [hx])]
    rfl

/-! ## Lemmas about the store and operation sequences -/

theorem op_record_key (op : Op) : op.record.key = op.key := by
  cases op <;> rfl

theorem op_apply_eq (op : Op) (s : Store) : op.apply s = (s.append op.record).1 := by
  cases op <;> rfl

theorem append_maxRecordSize (s : Store) (r : Record) :
    (s.append r).1.maxRecordSize = s.maxRecordSize := by
  unfold Store.append
  split <;> rfl

theorem applyOps_maxRecordSize (ops : List Op) :
    ∀ s : Store, (applyOps s ops).maxRecordSize = s.maxRecordSize := by
  induction ops with
  | nil => intro s; rfl
  | cons op ops ih =>
    intro s
    rw [applyOps, ih, op_apply_eq, append_maxRecordSize]

theorem append_file_of_fits (s : Store) (r : Record) (h : r.Size ≤ s.maxRecordSize) :
    (s.append r).1.file = s.file ++ r.Serialize := by
  unfold Store.append
  rw [if_neg (by omega)]

theorem applyOps_file (ops : List Op) :
    ∀ s : Store, (∀ op ∈ ops, op.record.Size ≤ s.maxRecordSize) →
      (applyOps s ops).file = s.file ++ serializeAll (ops.map Op.record) := by
  induction ops with
  | nil => intro s _; simp [applyOps, serializeAll]
  | cons op ops ih =>
    intro s h
    rw [applyOps, ih _ fun x hx => by
        rw [op_apply_eq, append_maxRecordSize]
        exact h x (by simp [hx])]
    rw [op_apply_eq, append_file_of_fits s _ (h op (by simp)), List.map_cons, serializeAll,
      List.append_assoc]

theorem op_record_wf (op : Op) (h : op.WF) (hsz : op.record.Size < 2 ^ 32) :
    RecordWF op.record := by
  cases op with
  | set k v =>
    obtain ⟨hk, hv⟩ := h
    exact ⟨by norm_num [Op.record, NewRecord, NewValue, kindValue], hk, hv, hsz⟩
  | del k =>
    exact ⟨by norm_num [Op.record, NewTombstone, kindTombstone], h, by intro b hb; simp [Op.record, NewTombstone, NoValue] at hb, hsz⟩

theorem lastMatch_map (key : List Nat) (ops : List Op) :
    ∀ acc : Option Op,
      (ops.map Op.record).foldl (fun acc r => if r.key = key then some r else acc)
        (acc.map Op.record) =
      (ops.foldl (fun acc op => if op.key = key then some op else acc) acc).map Op.record := by
  induction ops with
  | nil => intro acc; rfl
  | cons op ops ih =>
    intro acc
    simp only [List.map_cons, List.foldl_cons, op_record_key]
    by_cases h : op.key = key
    · rw [if_pos h, if_pos h]
      exact ih (some op)
    · rw [if_neg h, if_neg h]
      exact ih acc

/-! ## Lemmas for the bit-flip analysis -/

set_option maxRecDepth 1000000

theorem getD_lt_256 (l : List Nat) (h : IsBytes l) (i : Nat) : l.getD i 0 < 256 := by
  rcases Nat.lt_or_ge i l.length with hi | hi
  · rw [List.getD_eq_getElem l 0 hi]
    exact h _ (List.getElem_mem hi)
  · rw [List.getD_eq_default _ _ hi]
    norm_num

theorem getD_set_ne (l : List Nat) (q i : Nat) (b : Nat) (h : q ≠ i) :
    (l.set q b).getD i 0 = l.getD i 0 := by
  rw [List.getD_eq_getElem?_getD, List.getD_eq_getElem?_getD, List.getElem?_set_ne h]

theorem beUint32_set_ge4 (l : List Nat) (q : Nat) (hq : 4 ≤ q) (b : Nat) :
    beUint32 (l.set q b) = beUint32 l := by
  unfold beUint32
  rw [getD_set_ne _ _ _ _ (by omega), getD_set_ne _ _ _ _ (by omega),
    getD_set_ne _ _ _ _ (by omega), getD_set_ne _ _ _ _ (by omega)]

theorem beUint32_set_lt4 (l : List Nat) (i : Nat) (hi : i < 4) (hlen : 4 ≤ l.length)
    (b : Nat) :
    beUint32 (l.set i b) + l.getD i 0 * 2 ^ (8 * (3 - i)) =
      beUint32 l + b * 2 ^ (8 * (3 - i)) := by
  have hset : ∀ q : Nat, q ≠ i → (l.set i b).getD q 0 = l.getD q 0 :=
    fun q hqi => getD_set_ne l i q b (fun h => hqi h.symm)
  have hsame : (l.set i b).getD i 0 = b := by
    rw [List.getD_eq_getElem?_getD, List.getElem?_set_self (by omega)]
    rfl
  interval_cases i
  · simp only [beUint32, hsame, hset 1 (by omega), hset 2 (by omega), hset 3 (by omega)]
    omega
  · simp only [beUint32, hsame, hset 0 (by omega), hset 2 (by omega), hset 3 (by omega)]
    omega
  · simp only [beUint32, hsame, hset 0 (by omega), hset 1 (by omega), hset 3 (by omega)]
    omega
  · simp only [beUint32, hsame, hset 0 (by omega), hset 1 (by omega), hset 2 (by omega)]
    omega

theorem beUint32_term_le (l : List Nat) (i : Nat) (hi : i < 4) :
    l.getD i 0 * 2 ^ (8 * (3 - i)) ≤ beUint32 l := by
  interval_cases i <;> simp only [beUint32] <;> omega

theorem xor_byte_cases : ∀ b < 256, ∀ j < 8,
    Nat.xor b (2 ^ j) < 256 ∧ Nat.xor b (2 ^ j) ≠ b ∧
    (Nat.xor b (2 ^ j) = b + 2 ^ j ∨ (2 ^ j ≤ b ∧ Nat.xor b (2 ^ j) = b - 2 ^ j)) := by
  decide

theorem serialize_keyLen_read (r : Record)
    (hk : r.key.length < 2 ^ 32) (hv : r.value.length < 2 ^ 32) :
    beUint32 (r.Serialize.drop 5) = r.key.length := by
  rw [serialize_decomp r hk hv]
  rw [show (putUint32BE (crc32 (serializeBody r)) ++ (r.kind ::
      (putUint32BE r.key.length ++ (putUint32BE r.value.length ++ (r.key ++ r.value))))).drop 5 =
      putUint32BE r.key.length ++ (putUint32BE r.value.length ++ (r.key ++ r.value)) by
    simp only [putUint32BE, List.cons_append, List.nil_append, List.drop_succ_cons,
      List.drop_zero]]
  exact beUint32_putUint32BE_append _ _ hk

theorem serialize_valLen_read (r : Record)
    (hk : r.key.length < 2 ^ 32) (hv : r.value.length < 2 ^ 32) :
    beUint32 (r.Serialize.drop 9) = r.value.length := by
  rw [serialize_decomp r hk hv]
  rw [show (putUint32BE (crc32 (serializeBody r)) ++ (r.kind ::
      (putUint32BE r.key.length ++ (putUint32BE r.value.length ++ (r.key ++ r.value))))).drop 9 =
      putUint32BE r.value.length ++ (r.key ++ r.value) by
    simp only [putUint32BE, List.cons_append, List.nil_append, List.drop_succ_cons,
      List.drop_zero]]
  exact beUint32_putUint32BE_append _ _ hv

theorem deserialize_eq_insufficient (data : List Nat)
    (h13 : ¬ data.length < headerLength)
    (hg : data.length % 2 ^ 32 < declaredSize data) :
    Deserialize data = .insufficientData := by
  simp only [declaredSize] at hg
  simp only [Deserialize]
  rw [if_neg h13, if_pos hg]

theorem deserialize_eq_corrupt (data : List Nat)
    (h13 : ¬ data.length < headerLength)
    (hg : ¬ data.length % 2 ^ 32 < declaredSize data)
    (hp : ¬ (declaredSize data < 4 ∨ data.length < declaredSize data))
    (hc : ¬ carriesMatchingCRC data) :
    Deserialize data = .corruptData := by
  simp only [declaredSize] at hg hp
  simp only [carriesMatchingCRC, declaredSize] at hc
  simp only [Deserialize]
  rw [if_neg h13, if_neg hg, if_neg hp, if_pos hc]

/-! ## The claims -/

set_option maxRecDepth 1000000

/-- C1: Codec round-trip.  For every Record `r` whose key length and value
length are at most `2^20` (byte-valid fields, as Go's types guarantee),
deserializing the byte sequence produced by serializing `r` returns a
Record with the same kind, the same key bytes and the same value bytes. -/
theorem roundtrip_C1 (r : Record)
    (hkind : r.kind < 256) (hkey : IsBytes r.key) (hval : IsBytes r.value)
    (hklen : r.key.length ≤ 2 ^ 20) (hvlen : r.value.length ≤ 2 ^ 20) :
    Deserialize r.Serialize = .ok r := by
  have h := deserialize_serialize_append r [] hkind hkey hval
    (by simp only [headerLength]; omega)
    (by simp only [Record.Size, headerLength]; simp; omega)
  simpa using h

/-- Witness for C1 at the record `Value(key = "k", value = "v")`. -/
theorem roundtrip_C1_witness :
    (NewValue [107] [118]).kind < 256 ∧ IsBytes (NewValue [107] [118]).key ∧
    IsBytes (NewValue [107] [118]).value ∧
    Deserialize (NewValue [107] [118]).Serialize = .ok (NewValue [107] [118]) :=
  ⟨by decide, by decide, by decide,
    roundtrip_C1 (NewValue [107] [118]) (by decide) (by decide) (by decide)
      (by decide) (by decide)⟩

/-- C8: Known serialization fixture.  Serializing the Value record with key
`"valid_key"` and value `"valid_value"` yields exactly the bytes whose raw
base64 encoding is `mFgwagAAAAAJAAAAC3ZhbGlkX2tleXZhbGlkX3ZhbHVl` — CRC
`0x9858306a`, kind 0, key length 9, value length 11, big-endian, then the
key and value bytes — and deserializing those bytes yields the record. -/
theorem fixture_C8 :
    (NewValue [118, 97, 108, 105, 100, 95, 107, 101, 121]
        [118, 97, 108, 105, 100, 95, 118, 97, 108, 117, 101]).Serialize =
      [0x98, 0x58, 0x30, 0x6a, 0, 0, 0, 0, 9, 0, 0, 0, 11,
       118, 97, 108, 105, 100, 95, 107, 101, 121,
       118, 97, 108, 105, 100, 95, 118, 97, 108, 117, 101] ∧
    Deserialize
      [0x98, 0x58, 0x30, 0x6a, 0, 0, 0, 0, 9, 0, 0, 0, 11,
       118, 97, 108, 105, 100, 95, 107, 101, 121,
       118, 97, 108, 105, 100, 95, 118, 97, 108, 117, 101] =
      .ok (NewValue [118, 97, 108, 105, 100, 95, 107, 101, 121]
        [118, 97, 108, 105, 100, 95, 118, 97, 108, 117, 101]) := by
  constructor
  · decide
  · decide

/-- C9: evidence against totality.  On the 13-byte buffer whose header
declares `keyLen = 2^32 - 13` and `valLen = 0`, the guard
`uint32(len(data)) < headerLength + keyLength + valLength` wraps to
`13 < 0` and passes, and the slice `data[4 : 0]` then panics at runtime —
`Deserialize` does not return a Record, `InsufficientData` or `Corrupt`. -/
theorem deserialize_panic_C9 :
    Deserialize [0, 0, 0, 0, 0, 255, 255, 255, 243, 0, 0, 0, 0] = .panic := by
  decide

/-- C7: evidence for the divergence.  This 13-byte buffer declares
`keyLen = 0` and `valLen = 2^32 - 13`, so `len(buf) < 13 + keyLen + valLen`
holds in exact arithmetic and the claim requires `InsufficientData`; the
code instead computes the sum in wrapping `uint32` arithmetic (obtaining 0),
passes the guard, and panics on the slice `data[4 : 0]`. -/
theorem insufficient_condition_C7 :
    13 ≤ ([0, 0, 0, 0, 1, 0, 0, 0, 0, 255, 255, 255, 243] : List Nat).length ∧
    ([0, 0, 0, 0, 1, 0, 0, 0, 0, 255, 255, 255, 243] : List Nat).length <
      13 + beUint32 (([0, 0, 0, 0, 1, 0, 0, 0, 0, 255, 255, 255, 243] : List Nat).drop 5) +
        beUint32 (([0, 0, 0, 0, 1, 0, 0, 0, 0, 255, 255, 255, 243] : List Nat).drop 9) ∧
    Deserialize [0, 0, 0, 0, 1, 0, 0, 0, 0, 255, 255, 255, 243] = .panic := by
  refine ⟨by decide, by decide, by decide⟩

/-- C5, counterexample to the claim as stated: this buffer has kind byte
`Tombstone`, a nonzero value-length field, and a matching CRC, and
`Deserialize` returns a Record successfully rather than rejecting it. -/
theorem tombstone_counterexample_C5 :
    ([0xd5, 0x6b, 0x44, 0xcd, 1, 0, 0, 0, 1, 0, 0, 0, 1, 107, 120] : List Nat).getD 4 0 =
      kindTombstone ∧
    beUint32 (([0xd5, 0x6b, 0x44, 0xcd, 1, 0, 0, 0, 1, 0, 0, 0, 1, 107, 120] : List Nat).drop 9)
      ≠ 0 ∧
    Deserialize [0xd5, 0x6b, 0x44, 0xcd, 1, 0, 0, 0, 1, 0, 0, 0, 1, 107, 120] =
      .ok { kind := kindTombstone, key := [107], value := [120] } := by
  refine ⟨by decide, by decide, by decide⟩

/-- C5, amended: deserialization does not enforce the zero-value policy for
tombstones.  Every well-formed buffer of kind `Tombstone` with a nonzero
value length deserializes successfully to a Record carrying that value;
only the `NewTombstone` constructor guarantees an empty value. -/
theorem tombstone_value_C5 (key value : List Nat)
    (hkey : IsBytes key) (hval : IsBytes value)
    (hklen : key.length ≤ 2 ^ 20) (hvlen : value.length ≤ 2 ^ 20)
    (hnz : value ≠ []) :
    Deserialize (Record.Serialize ⟨kindTombstone, key, value⟩) =
      .ok ⟨kindTombstone, key, value⟩ ∧
    (NewTombstone key).value = [] := by
  constructor
  · have h := deserialize_serialize_append ⟨kindTombstone, key, value⟩ []
      (by norm_num [kindTombstone]) hkey hval
      (by simp only [headerLength]; omega)
      (by simp only [Record.Size, headerLength]; simp; omega)
    simpa using h
  · rfl

/-- Witness for C5 at key `"k"`, value `"x"`. -/
theorem tombstone_value_C5_witness :
    ([120] : List Nat) ≠ [] ∧
    (Deserialize (Record.Serialize ⟨kindTombstone, [107], [120]⟩) =
        .ok ⟨kindTombstone, [107], [120]⟩ ∧
      (NewTombstone [107]).value = []) :=
  ⟨by decide,
    tombstone_value_C5 [107] [120] (by decide) (by decide) (by decide) (by decide)
      (by decide)⟩

/-- C10: unknown kind bytes are accepted as live values.  A well-formed
buffer whose kind byte is neither 0 nor 1 (with matching CRC) deserializes
successfully, `IsTombstone` is `false` on the result, and `Get` on a store
whose log contains exactly that record returns its value as a live value. -/
theorem unknown_kind_C10 (kind : Nat) (key value : List Nat)
    (hk256 : kind < 256) (hk0 : kind ≠ kindValue) (hk1 : kind ≠ kindTombstone)
    (hkey : IsBytes key) (hval : IsBytes value)
    (hklen : key.length ≤ 2 ^ 19) (hvlen : value.length ≤ 2 ^ 19) :
    Deserialize (Record.Serialize ⟨kind, key, value⟩) = .ok ⟨kind, key, value⟩ ∧
    Record.IsTombstone ⟨kind, key, value⟩ = false ∧
    Store.Get { file := serializeAll [⟨kind, key, value⟩],
                maxRecordSize := defaultMaxRecordSize } key = .ok value := by
  refine ⟨?_, ?_, ?_⟩
  · have h := deserialize_serialize_append ⟨kind, key, value⟩ [] hk256 hkey hval
      (by simp only [headerLength]; omega)
      (by simp only [Record.Size, headerLength]; simp; omega)
    simpa using h
  · simp [Record.IsTombstone, kindTombstone]
    exact hk1
  · have hscan : scanAll defaultMaxRecordSize (serializeAll [⟨kind, key, value⟩]) =
        .clean [⟨kind, key, value⟩] := by
      apply scanAll_complete
      · intro r hr
        simp only [List.mem_singleton] at hr
        subst hr
        refine ⟨⟨hk256, hkey, hval, ?_⟩, ?_⟩
        · simp only [Record.Size, headerLength]; omega
        · simp only [Record.Size, headerLength, scannerMax, defaultMaxRecordSize]
          have : (1 : Nat) <<< 20 = 1048576 := by decide
          rw [this]
          simp only [Nat.max_def]
          split <;> omega
      · simp only [scannerMax, defaultMaxRecordSize]
        decide
    simp only [Store.Get, hscan, List.foldl_cons, List.foldl_nil]
    simp only [kindTombstone] at hk1
    simp [Record.IsTombstone, kindTombstone, hk1]

/-- Witness for C10 at kind byte 2, key `"k"`, value `"v"`. -/
theorem unknown_kind_C10_witness :
    (2 : Nat) ≠ kindValue ∧ (2 : Nat) ≠ kindTombstone ∧
    (Deserialize (Record.Serialize ⟨2, [107], [118]⟩) = .ok ⟨2, [107], [118]⟩ ∧
      Record.IsTombstone ⟨2, [107], [118]⟩ = false ∧
      Store.Get { file := serializeAll [⟨2, [107], [118]⟩],
                  maxRecordSize := defaultMaxRecordSize } [107] = .ok [118]) :=
  ⟨by decide, by decide,
    unknown_kind_C10 2 [107] [118] (by decide) (by decide) (by decide) (by decide)
      (by decide) (by decide) (by decide)⟩

/-- C3: Framing under truncation.  A buffer of `N` well-formed serialized
records (each within the scanner's buffer limit) concatenated with `k`
additional bytes, `0 < k <` the size of the record those bytes begin (and
`k` within the buffer limit), scans to exactly the `N` records in order
followed by a clean end-of-stream, with no error. -/
theorem scanner_truncation_C3 (m : Nat) (rs : List Record) (next : Record) (k : Nat)
    (hrs : ∀ r ∈ rs, RecordWF r ∧ r.Size ≤ scannerMax m)
    (hnext : RecordWF next) (hk0 : 0 < k) (hkS : k < next.Size)
    (hkM : k < scannerMax m) (hM : scannerMax m < 2 ^ 32) :
    scanAll m (serializeAll rs ++ next.Serialize.take k) = .clean rs := by
  induction rs with
  | nil => simpa [serializeAll] using scanAll_fragment m next k hnext hk0 hkS hkM
  | cons r rs ih =>
    rw [serializeAll, List.append_assoc,
      scanAll_cons m r _ (hrs r (by simp)).1 (hrs r (by simp)).2 hM,
      ih fun x hx => hrs x (by simp [hx])]
    rfl

/-- Witness for C3: two records `("k","v")`, `("l","w")` followed by the
first 5 bytes of a third record's serialization, scanned with
`maxTokenSize = 1024`. -/
theorem scanner_truncation_C3_witness :
    (0 : Nat) < 5 ∧ 5 < (NewValue [109] [119,119]).Size ∧
    scanAll 1024 (serializeAll [NewValue [107] [118], NewValue [108] [119]] ++
        (NewValue [109] [119,119]).Serialize.take 5) =
      .clean [NewValue [107] [118], NewValue [108] [119]] :=
  ⟨by decide, by decide,
    scanner_truncation_C3 1024 [NewValue [107] [118], NewValue [108] [119]]
      (NewValue [109] [119,119]) 5 (by decide) (by decide) (by decide) (by decide)
      (by decide) (by decide)⟩

/-- C4: Oversize rejection with atomicity.  `Set(key, value)` fails with
`BadRequest` iff `13 + len(key) + len(value) > maxRecordSize`, and in that
case the log file is untouched (no I/O was performed); same for `Delete`
with value length 0. -/
theorem oversize_reject_C4 (s : Store) (key value : List Nat) :
    ((s.Set key value).2 = .badRequest ↔
      13 + key.length + value.length > s.maxRecordSize) ∧
    ((s.Set key value).2 = .badRequest → (s.Set key value).1.file = s.file) ∧
    ((s.Delete key).2 = .badRequest ↔ 13 + key.length > s.maxRecordSize) ∧
    ((s.Delete key).2 = .badRequest → (s.Delete key).1.file = s.file) := by
  simp only [Store.Set, Store.Delete, Store.append, NewRecord, NewValue, NewTombstone,
    NoValue, Record.Size, headerLength]
  refine ⟨?_, ?_, ?_, ?_⟩ <;> split_ifs with h <;>
    simp_all <;> omega

/-- Witness for C4: with `maxRecordSize = 15`, `Set("k", "vw")` (record size
16) is rejected and the file stays empty. -/
theorem oversize_reject_C4_witness :
    (Store.Set ⟨[], 15⟩ [107] [118, 119]).2 = .badRequest ∧
    (Store.Set ⟨[], 15⟩ [107] [118, 119]).1.file = [] := by
  have h := oversize_reject_C4 ⟨[], 15⟩ [107] [118, 119]
  have hb : (Store.Set ⟨[], 15⟩ [107] [118, 119]).2 = .badRequest := h.1.mpr (by decide)
  exact ⟨hb, h.2.1 hb⟩

theorem oversize_op_noop (v : List Nat) (hv : 2 ^ 20 ≤ v.length) :
    Op.apply NewStore (Op.set [107] v) = NewStore := by
  have hc : (NewRecord [107] v).Size > NewStore.maxRecordSize := by
    simp only [Record.Size, NewRecord, NewValue, headerLength, NewStore,
      defaultMaxRecordSize]
    have h20 : (1 : Nat) <<< 20 = 1048576 := rfl
    rw [h20]
    omega
  rw [Op.apply, Store.Set, Store.append, if_pos hc]

/-- C2, counterexample to the claim as stated: a single `Set` whose record
exceeds the default `maxRecordSize` is rejected with `BadRequest` and writes
nothing, so although the most recent operation on the key is that `Set`,
`Get` returns `NotFound` instead of the value. -/
theorem latest_wins_counterexample_C2 :
    lastOpOn [107] [Op.set [107] (List.replicate (2 ^ 20) 118)] =
      some (Op.set [107] (List.replicate (2 ^ 20) 118)) ∧
    (applyOps NewStore [Op.set [107] (List.replicate (2 ^ 20) 118)]).Get [107] =
      .notFound := by
  constructor
  · rw [lastOpOn, List.foldl_cons, List.foldl_nil,
      if_pos (show (Op.set [107] (List.replicate (2 ^ 20) 118)).key = [107] from rfl)]
  · rw [show applyOps NewStore [Op.set [107] (List.replicate (2 ^ 20) 118)] =
        Op.apply NewStore (Op.set [107] (List.replicate (2 ^ 20) 118)) from rfl,
      oversize_op_noop (List.replicate (2 ^ 20) 118)
        (le_of_eq (List.length_replicate _ _).symm)]
    decide

/-- C2, amended: for every sequence of `Set`/`Delete` operations applied
single-threaded to a fresh store, provided every operation's record fits
`maxRecordSize` (so that no operation is rejected with `BadRequest`),
`Get(k)` returns the value of the most recent `Set(k, v)` when that is the
latest operation on `k`, and `NotFound` when there is no operation on `k` or
the latest one is a `Delete`. -/
theorem get_latest_C2 (ops : List Op) (key : List Nat)
    (hwf : ∀ op ∈ ops, op.WF)
    (hsize : ∀ op ∈ ops, op.record.Size ≤ defaultMaxRecordSize) :
    (applyOps NewStore ops).Get key =
      match lastOpOn key ops with
      | some (.set _ v) => .ok v
      | some (.del _) => .notFound
      | none => .notFound := by
  have hmax : (applyOps NewStore ops).maxRecordSize = defaultMaxRecordSize :=
    applyOps_maxRecordSize ops NewStore
  have hfile : (applyOps NewStore ops).file = serializeAll (ops.map Op.record) := by
    have h := applyOps_file ops NewStore hsize
    simpa [NewStore] using h
  have hdef : defaultMaxRecordSize = 1048576 := by decide
  have hscanmax : scannerMax defaultMaxRecordSize = 1048589 := by decide
  have hscan : scanAll defaultMaxRecordSize (serializeAll (ops.map Op.record)) =
      .clean (ops.map Op.record) := by
    apply scanAll_complete
    · intro r hr
      obtain ⟨op, hop, rfl⟩ := List.mem_map.mp hr
      have h1 := hwf op hop
      have h2 := hsize op hop
      refine ⟨op_record_wf op h1 (by omega), by omega⟩
    · rw [hscanmax]; norm_num
  have hfold := lastMatch_map key ops none
  rw [show Option.map Op.record (none : Option Op) = (none : Option Record) from rfl] at hfold
  simp only [Store.Get, hmax, hfile, hscan, hfold, lastOpOn]
  cases hlast : ops.foldl (fun acc op => if op.key = key then some op else acc) none with
  | none => rfl
  | some op =>
    cases op with
    | set k v => simp [Op.record, NewRecord, NewValue, Record.IsTombstone, kindValue,
        kindTombstone]
    | del k => simp [Op.record, NewTombstone, Record.IsTombstone, kindTombstone]

/-- C6, counterexample to the claim as stated: flipping the top bit of the
first byte of the key-length field (byte 5, bit 7) of the fixture record
produces a buffer that does not carry a matching CRC, yet `Deserialize`
returns `InsufficientData`, not `Corrupt`: the raised length field makes the
declared size exceed the buffer, so the CRC is never compared. -/
theorem bitflip_counterexample_C6 :
    ¬ carriesMatchingCRC (flipBit ((NewValue [118, 97, 108, 105, 100, 95, 107, 101, 121]
        [118, 97, 108, 105, 100, 95, 118, 97, 108, 117, 101]).Serialize) 5 7) ∧
    Deserialize (flipBit ((NewValue [118, 97, 108, 105, 100, 95, 107, 101, 121]
        [118, 97, 108, 105, 100, 95, 118, 97, 108, 117, 101]).Serialize) 5 7) =
      .insufficientData := by
  refine ⟨by decide, by decide⟩

/-- C6, amended: flipping any single bit of a well-formed serialized record
never yields a successful deserialization.  Under the claim's own exclusion
(the altered buffer does not carry an equal CRC), `Deserialize` returns
`Corrupt` whenever the altered header's declared size still fits the buffer,
and `InsufficientData` exactly when the flip raised the declared size beyond
the buffer — which can only happen for a flip inside one of the two length
fields (bytes 5 to 12). -/
theorem bitflip_C6 (r : Record) (p j : Nat)
    (hkind : r.kind < 256) (hkey : IsBytes r.key) (hval : IsBytes r.value)
    (hklen : r.key.length ≤ 2 ^ 20) (hvlen : r.value.length ≤ 2 ^ 20)
    (hp : p < r.Serialize.length) (hj : j < 8)
    (hcrc : ¬ carriesMatchingCRC (flipBit r.Serialize p j)) :
    ((flipBit r.Serialize p j).length < declaredSize (flipBit r.Serialize p j) →
      Deserialize (flipBit r.Serialize p j) = .insufficientData ∧ 5 ≤ p ∧ p < 13) ∧
    (¬ (flipBit r.Serialize p j).length < declaredSize (flipBit r.Serialize p j) →
      Deserialize (flipBit r.Serialize p j) = .corruptData) := by
  have hk32 : r.key.length < 2 ^ 32 := lt_of_le_of_lt hklen (by norm_num)
  have hv32 : r.value.length < 2 ^ 32 := lt_of_le_of_lt hvlen (by norm_num)
  have hbytes : IsBytes r.Serialize := serialize_isBytes r hkind hkey hval
  have hslen : r.Serialize.length = 13 + r.key.length + r.value.length := by
    rw [serialize_length]
    simp only [Record.Size, headerLength]
  have hkl : beUint32 (r.Serialize.drop 5) = r.key.length :=
    serialize_keyLen_read r hk32 hv32
  have hvl : beUint32 (r.Serialize.drop 9) = r.value.length :=
    serialize_valLen_read r hk32 hv32
  have hb : r.Serialize.getD p 0 < 256 := getD_lt_256 _ hbytes p
  obtain ⟨hb'lt, hb'ne, hb'cases⟩ := xor_byte_cases (r.Serialize.getD p 0) hb j hj
  have hsetlen : (flipBit r.Serialize p j).length = r.Serialize.length := by
    rw [flipBit, List.length_set]
  have h13 : ¬ (flipBit r.Serialize p j).length < headerLength := by
    rw [hsetlen, hslen]
    simp only [headerLength]
    omega
  have hpos : 0 < 2 ^ j * 2 ^ (8 * (3 - (p - 5))) := by positivity
  have hposv : 0 < 2 ^ j * 2 ^ (8 * (3 - (p - 9))) := by positivity
  have h2j : (2 : Nat) ^ j ≤ 2 ^ 7 := Nat.pow_le_pow_right (by norm_num) (by omega)
  rcases Nat.lt_or_ge p 5 with hp5 | hp5
  · -- the checksum field or the kind byte: the header lengths are untouched
    have hd5 : (flipBit r.Serialize p j).drop 5 = r.Serialize.drop 5 := by
      rw [flipBit, List.drop_set, if_pos hp5]
    have hd9 : (flipBit r.Serialize p j).drop 9 = r.Serialize.drop 9 := by
      rw [flipBit, List.drop_set, if_pos (by omega)]
    have hds : declaredSize (flipBit r.Serialize p j) =
        13 + r.key.length + r.value.length := by
      rw [declaredSize, hd5, hd9, hkl, hvl]
      simp only [headerLength]
      omega
    refine ⟨fun hcond => absurd hcond (by rw [hds, hsetlen, hslen]; omega), fun _ => ?_⟩
    refine deserialize_eq_corrupt _ h13 ?_ ?_ hcrc
    · rw [hds, hsetlen, hslen]; omega
    · rw [hds, hsetlen, hslen]; omega
  · rcases Nat.lt_or_ge p 9 with hp9 | hp9
    · -- the key-length field
      have hd5 : (flipBit r.Serialize p j).drop 5 =
          (r.Serialize.drop 5).set (p - 5) (Nat.xor (r.Serialize.getD p 0) (2 ^ j)) := by
        rw [flipBit, List.drop_set, if_neg (by omega)]
      have hd9 : (flipBit r.Serialize p j).drop 9 = r.Serialize.drop 9 := by
        rw [flipBit, List.drop_set, if_pos (by omega)]
      have hidx : 5 + (p - 5) = p := by omega
      have hb_eq : r.Serialize.getD p 0 = (r.Serialize.drop 5).getD (p - 5) 0 := by
        rw [List.getD_eq_getElem?_getD, List.getD_eq_getElem?_getD, List.getElem?_drop,
          hidx]
      have hl5len : 4 ≤ (r.Serialize.drop 5).length := by
        rw [List.length_drop, hslen]; omega
      have hkey' := beUint32_set_lt4 (r.Serialize.drop 5) (p - 5) (by omega) hl5len
        (Nat.xor (r.Serialize.getD p 0) (2 ^ j))
      rw [← hb_eq, hkl] at hkey'
      have hterm : r.Serialize.getD p 0 * 2 ^ (8 * (3 - (p - 5))) ≤ r.key.length := by
        have h := beUint32_term_le (r.Serialize.drop 5) (p - 5) (by omega)
        rw [← hb_eq, hkl] at h
        exact h
      have h2w : (2 : Nat) ^ (8 * (3 - (p - 5))) ≤ 2 ^ 24 :=
        Nat.pow_le_pow_right (by norm_num) (by omega)
      have hprod : 2 ^ j * 2 ^ (8 * (3 - (p - 5))) ≤ 2 ^ 7 * 2 ^ 24 :=
        Nat.mul_le_mul h2j h2w
      have hds : declaredSize (flipBit r.Serialize p j) =
          (13 + beUint32 ((r.Serialize.drop 5).set (p - 5)
            (Nat.xor (r.Serialize.getD p 0) (2 ^ j))) + r.value.length) % 2 ^ 32 := by
        rw [declaredSize, hd5, hd9, hvl]
        simp only [headerLength]
      rcases hb'cases with hinc | ⟨hle, hdec⟩
      · -- the length field increased: the declared size exceeds the buffer
        have hexp : (r.Serialize.getD p 0 + 2 ^ j) * 2 ^ (8 * (3 - (p - 5))) =
            r.Serialize.getD p 0 * 2 ^ (8 * (3 - (p - 5))) +
              2 ^ j * 2 ^ (8 * (3 - (p - 5))) := by ring
        rw [hinc] at hkey' hds
        rw [hexp] at hkey'
        refine ⟨fun _ => ⟨?_, by omega, by omega⟩, fun hcond => absurd ?_ hcond⟩
        · refine deserialize_eq_insufficient _ h13 ?_
          rw [hds, hsetlen, hslen]
          omega
        · rw [hds, hsetlen, hslen]
          omega
      · -- the length field decreased: a shorter CRC range is compared
        have hexp : (r.Serialize.getD p 0 - 2 ^ j) * 2 ^ (8 * (3 - (p - 5))) =
            r.Serialize.getD p 0 * 2 ^ (8 * (3 - (p - 5))) -
              2 ^ j * 2 ^ (8 * (3 - (p - 5))) := by
          rw [Nat.sub_mul]
        have hble : 2 ^ j * 2 ^ (8 * (3 - (p - 5))) ≤
            r.Serialize.getD p 0 * 2 ^ (8 * (3 - (p - 5))) :=
          Nat.mul_le_mul_right _ hle
        rw [hdec] at hkey' hds
        rw [hexp] at hkey'
        refine ⟨fun hcond => absurd hcond (by rw [hds, hsetlen, hslen]; omega),
          fun _ => ?_⟩
        refine deserialize_eq_corrupt _ h13 ?_ ?_ hcrc
        · rw [hds, hsetlen, hslen]; omega
        · rw [hds, hsetlen, hslen]; omega
    · rcases Nat.lt_or_ge p 13 with hp13 | hp13
      · -- the value-length field
        have hd5 : (flipBit r.Serialize p j).drop 5 =
            (r.Serialize.drop 5).set (p - 5) (Nat.xor (r.Serialize.getD p 0) (2 ^ j)) := by
          rw [flipBit, List.drop_set, if_neg (by omega)]
        have hd9 : (flipBit r.Serialize p j).drop 9 =
            (r.Serialize.drop 9).set (p - 9) (Nat.xor (r.Serialize.getD p 0) (2 ^ j)) := by
          rw [flipBit, List.drop_set, if_neg (by omega)]
        have hidx : 9 + (p - 9) = p := by omega
        have hb_eq : r.Serialize.getD p 0 = (r.Serialize.drop 9).getD (p - 9) 0 := by
          rw [List.getD_eq_getElem?_getD, List.getD_eq_getElem?_getD, List.getElem?_drop,
            hidx]
        have hl9len : 4 ≤ (r.Serialize.drop 9).length := by
          rw [List.length_drop, hslen]; omega
        have hval' := beUint32_set_lt4 (r.Serialize.drop 9) (p - 9) (by omega) hl9len
          (Nat.xor (r.Serialize.getD p 0) (2 ^ j))
        rw [← hb_eq, hvl] at hval'
        have hterm : r.Serialize.getD p 0 * 2 ^ (8 * (3 - (p - 9))) ≤ r.value.length := by
          have h := beUint32_term_le (r.Serialize.drop 9) (p - 9) (by omega)
          rw [← hb_eq, hvl] at h
          exact h
        have h2w : (2 : Nat) ^ (8 * (3 - (p - 9))) ≤ 2 ^ 24 :=
          Nat.pow_le_pow_right (by norm_num) (by omega)
        have hprod : 2 ^ j * 2 ^ (8 * (3 - (p - 9))) ≤ 2 ^ 7 * 2 ^ 24 :=
          Nat.mul_le_mul h2j h2w
        have hds : declaredSize (flipBit r.Serialize p j) =
            (13 + r.key.length + beUint32 ((r.Serialize.drop 9).set (p - 9)
              (Nat.xor (r.Serialize.getD p 0) (2 ^ j)))) % 2 ^ 32 := by
          rw [declaredSize, hd5, hd9, beUint32_set_ge4 _ _ (by omega) _, hkl]
          simp only [headerLength]
        rcases hb'cases with hinc | ⟨hle, hdec⟩
        · have hexp : (r.Serialize.getD p 0 + 2 ^ j) * 2 ^ (8 * (3 - (p - 9))) =
              r.Serialize.getD p 0 * 2 ^ (8 * (3 - (p - 9))) +
                2 ^ j * 2 ^ (8 * (3 - (p - 9))) := by ring
          rw [hinc] at hval' hds
          rw [hexp] at hval'
          refine ⟨fun _ => ⟨?_, by omega, by omega⟩, fun hcond => absurd ?_ hcond⟩
          · refine deserialize_eq_insufficient _ h13 ?_
            rw [hds, hsetlen, hslen]
            omega
          · rw [hds, hsetlen, hslen]
            omega
        · have hexp : (r.Serialize.getD p 0 - 2 ^ j) * 2 ^ (8 * (3 - (p - 9))) =
              r.Serialize.getD p 0 * 2 ^ (8 * (3 - (p - 9))) -
                2 ^ j * 2 ^ (8 * (3 - (p - 9))) := by
            rw [Nat.sub_mul]
          have hble : 2 ^ j * 2 ^ (8 * (3 - (p - 9))) ≤
              r.Serialize.getD p 0 * 2 ^ (8 * (3 - (p - 9))) :=
            Nat.mul_le_mul_right _ hle
          rw [hdec] at hval' hds
          rw [hexp] at hval'
          refine ⟨fun hcond => absurd hcond (by rw [hds, hsetlen, hslen]; omega),
            fun _ => ?_⟩
          refine deserialize_eq_corrupt _ h13 ?_ ?_ hcrc
          · rw [hds, hsetlen, hslen]; omega
          · rw [hds, hsetlen, hslen]; omega
      · -- the key or value bytes: the header lengths are untouched
        have hd5 : (flipBit r.Serialize p j).drop 5 =
            (r.Serialize.drop 5).set (p - 5) (Nat.xor (r.Serialize.getD p 0) (2 ^ j)) := by
          rw [flipBit, List.drop_set, if_neg (by omega)]
        have hd9 : (flipBit r.Serialize p j).drop 9 =
            (r.Serialize.drop 9).set (p - 9) (Nat.xor (r.Serialize.getD p 0) (2 ^ j)) := by
          rw [flipBit, List.drop_set, if_neg (by omega)]
        have hds : declaredSize (flipBit r.Serialize p j) =
            13 + r.key.length + r.value.length := by
          rw [declaredSize, hd5, hd9, beUint32_set_ge4 _ _ (by omega) _,
            beUint32_set_ge4 _ _ (by omega) _, hkl, hvl]
          simp only [headerLength]
          omega
        refine ⟨fun hcond => absurd hcond (by rw [hds, hsetlen, hslen]; omega),
          fun _ => ?_⟩
        refine deserialize_eq_corrupt _ h13 ?_ ?_ hcrc
        · rw [hds, hsetlen, hslen]; omega
        · rw [hds, hsetlen, hslen]; omega

/-- Witness for C6: flipping bit 0 of the kind byte (position 4) of the
fixture record leaves the declared size within the buffer and makes the CRC
comparison fail, so `Deserialize` reports exactly `Corrupt`. -/
theorem bitflip_C6_witness :
    ¬ carriesMatchingCRC (flipBit ((NewValue [118, 97, 108, 105, 100, 95, 107, 101, 121]
        [118, 97, 108, 105, 100, 95, 118, 97, 108, 117, 101]).Serialize) 4 0) ∧
    Deserialize (flipBit ((NewValue [118, 97, 108, 105, 100, 95, 107, 101, 121]
        [118, 97, 108, 105, 100, 95, 118, 97, 108, 117, 101]).Serialize) 4 0) =
      .corruptData := by
  have h := bitflip_C6 (NewValue [118, 97, 108, 105, 100, 95, 107, 101, 121]
      [118, 97, 108, 105, 100, 95, 118, 97, 108, 117, 101]) 4 0
    (by decide) (by decide) (by decide) (by decide) (by decide) (by decide) (by decide)
    (by decide)
  exact ⟨by decide, h.2 (by decide)⟩


/-- Witness for C2: `set("k","v"); set("k","w")` then `get("k")` returns
`"w"`. -/
theorem get_latest_C2_witness :
    (applyOps NewStore [Op.set [107] [118], Op.set [107] [119]]).Get [107] =
      .ok [119] := by
  have h := get_latest_C2 [Op.set [107] [118], Op.set [107] [119]] [107]
    (by decide) (by decide)
  exact h.trans (by decide)

end Logstore
